import Mathlib

/-!
Verification of the xiaozhi MCP bridge and hub against its specification.

The Python sources are shallowly embedded: JSON values become the inductive
type `JVal`, Python dicts become association lists with the dict operations
`dictGet` / `dictSet` / `dictDel` / `dictPop`, and each function under test
is translated line by line into a pure Lean definition.
-/

/-- A JSON value, as produced by Python `json.loads`.  Numbers are modelled
as integers (the frames the bridge handles carry ids and names; no claim
depends on float arithmetic). -/
inductive JVal where
  | null : JVal
  | bool : Bool → JVal
  | num : Int → JVal
  | str : String → JVal
  | arr : List JVal → JVal
  | obj : List (String × JVal) → JVal

mutual

/-- Decidable equality of JSON values (Python `==` on parsed JSON). -/
def JVal.decEq : (a b : JVal) → Decidable (a = b)
  | JVal.null, JVal.null => isTrue rfl
  | JVal.null, JVal.bool _ => isFalse (fun h => JVal.noConfusion h)
  | JVal.null, JVal.num _ => isFalse (fun h => JVal.noConfusion h)
  | JVal.null, JVal.str _ => isFalse (fun h => JVal.noConfusion h)
  | JVal.null, JVal.arr _ => isFalse (fun h => JVal.noConfusion h)
  | JVal.null, JVal.obj _ => isFalse (fun h => JVal.noConfusion h)
  | JVal.bool _, JVal.null => isFalse (fun h => JVal.noConfusion h)
  | JVal.bool a, JVal.bool b =>
      if h : a = b then isTrue (by rw [h]) else
        isFalse (fun hh => h (by cases hh; rfl))
  | JVal.bool _, JVal.num _ => isFalse (fun h => JVal.noConfusion h)
  | JVal.bool _, JVal.str _ => isFalse (fun h => JVal.noConfusion h)
  | JVal.bool _, JVal.arr _ => isFalse (fun h => JVal.noConfusion h)
  | JVal.bool _, JVal.obj _ => isFalse (fun h => JVal.noConfusion h)
  | JVal.num _, JVal.null => isFalse (fun h => JVal.noConfusion h)
  | JVal.num _, JVal.bool _ => isFalse (fun h => JVal.noConfusion h)
  | JVal.num a, JVal.num b =>
      if h : a = b then isTrue (by rw [h]) else
        isFalse (fun hh => h (by cases hh; rfl))
  | JVal.num _, JVal.str _ => isFalse (fun h => JVal.noConfusion h)
  | JVal.num _, JVal.arr _ => isFalse (fun h => JVal.noConfusion h)
  | JVal.num _, JVal.obj _ => isFalse (fun h => JVal.noConfusion h)
  | JVal.str _, JVal.null => isFalse (fun h => JVal.noConfusion h)
  | JVal.str _, JVal.bool _ => isFalse (fun h => JVal.noConfusion h)
  | JVal.str _, JVal.num _ => isFalse (fun h => JVal.noConfusion h)
  | JVal.str a, JVal.str b =>
      if h : a = b then isTrue (by rw [h]) else
        isFalse (fun hh => h (by cases hh; rfl))
  | JVal.str _, JVal.arr _ => isFalse (fun h => JVal.noConfusion h)
  | JVal.str _, JVal.obj _ => isFalse (fun h => JVal.noConfusion h)
  | JVal.arr _, JVal.null => isFalse (fun h => JVal.noConfusion h)
  | JVal.arr _, JVal.bool _ => isFalse (fun h => JVal.noConfusion h)
  | JVal.arr _, JVal.num _ => isFalse (fun h => JVal.noConfusion h)
  | JVal.arr _, JVal.str _ => isFalse (fun h => JVal.noConfusion h)
  | JVal.arr xs, JVal.arr ys =>
      match JVal.decEqList xs ys with
      | isTrue h => isTrue (by rw [h])
      | isFalse h => isFalse (fun hh => h (by cases hh; rfl))
  | JVal.arr _, JVal.obj _ => isFalse (fun h => JVal.noConfusion h)
  | JVal.obj _, JVal.null => isFalse (fun h => JVal.noConfusion h)
  | JVal.obj _, JVal.bool _ => isFalse (fun h => JVal.noConfusion h)
  | JVal.obj _, JVal.num _ => isFalse (fun h => JVal.noConfusion h)
  | JVal.obj _, JVal.str _ => isFalse (fun h => JVal.noConfusion h)
  | JVal.obj _, JVal.arr _ => isFalse (fun h => JVal.noConfusion h)
  | JVal.obj fs, JVal.obj gs =>
      match JVal.decEqFields fs gs with
      | isTrue h => isTrue (by rw [h])
      | isFalse h => isFalse (fun hh => h (by cases hh; rfl))

/-- Decidable equality of JSON arrays. -/
def JVal.decEqList : (xs ys : List JVal) → Decidable (xs = ys)
  | [], [] => isTrue rfl
  | [], _ :: _ => isFalse (fun h => List.noConfusion h)
  | _ :: _, [] => isFalse (fun h => List.noConfusion h)
  | x :: xs, y :: ys =>
      match JVal.decEq x y with
      | isFalse h => isFalse (fun hh => h (by cases hh; rfl))
      | isTrue h1 =>
        match JVal.decEqList xs ys with
        | isTrue h2 => isTrue (by rw [h1, h2])
        | isFalse h2 => isFalse (fun hh => h2 (by cases hh; rfl))

/-- Decidable equality of JSON object field lists. -/
def JVal.decEqFields : (fs gs : List (String × JVal)) → Decidable (fs = gs)
  | [], [] => isTrue rfl
  | [], _ :: _ => isFalse (fun h => List.noConfusion h)
  | _ :: _, [] => isFalse (fun h => List.noConfusion h)
  | (k1, v1) :: fs, (k2, v2) :: gs =>
      if hk : k1 = k2 then
        match JVal.decEq v1 v2 with
        | isFalse h => isFalse (fun hh => h (by cases hh; rfl))
        | isTrue hv =>
          match JVal.decEqFields fs gs with
          | isTrue ht => isTrue (by rw [hk, hv, ht])
          | isFalse ht => isFalse (fun hh => ht (by cases hh; rfl))
      else isFalse (fun hh => hk (by cases hh; rfl))

end

instance : DecidableEq JVal := JVal.decEq

/-- Python dict lookup `d.get(k)` on an association list (first match). -/
def dictGet {α β : Type} [DecidableEq α] : List (α × β) → α → Option β
  | [], _ => none
  | (k, v) :: rest, key => if k = key then some v else dictGet rest key

/-- Python dict assignment `d[k] = v`: update in place when the key exists
(keeping its position), otherwise append at the end (insertion order). -/
def dictSet {α β : Type} [DecidableEq α] : List (α × β) → α → β → List (α × β)
  | [], key, v => [(key, v)]
  | (k, w) :: rest, key, v =>
      if k = key then (k, v) :: rest else (k, w) :: dictSet rest key v

/-- Python `del d[k]`: remove the entry with the given key. -/
def dictDel {α β : Type} [DecidableEq α] (d : List (α × β)) (key : α) :
    List (α × β) :=
  d.filter (fun e => e.1 ≠ key)

/-- Python `d.pop(k, default)`: the value (or default) and the shrunk dict. -/
def dictPop {α β : Type} [DecidableEq α] (d : List (α × β)) (key : α)
    (dflt : β) : β × List (α × β) :=
  match dictGet d key with
  | some v => (v, dictDel d key)
  | none => (dflt, d)

/-- `msg.get(k)` on a JSON value: key lookup on objects; any other shape
raises `AttributeError` in Python, which every caller modelled here turns
into the same observable behaviour as a missing key. -/
def jGet : JVal → String → Option JVal
  | JVal.obj fields, key => dictGet fields key
  | _, _ => none

/-- `msg.get(k, default)`. -/
def jGetD (v : JVal) (key : String) (dflt : JVal) : JVal :=
  (jGet v key).getD dflt

/-- `d[k] = v` on a JSON object (other shapes are left unchanged; the code
only assigns into values it has just read as dicts). -/
def jSet : JVal → String → JVal → JVal
  | JVal.obj fields, key, v => JVal.obj (dictSet fields key v)
  | other, _, _ => other

/-- Python truthiness of a JSON value (`if x:`). -/
def truthyJ : JVal → Bool
  | JVal.null => false
  | JVal.bool b => b
  | JVal.num n => n ≠ 0
  | JVal.str s => s ≠ ""
  | JVal.arr xs => ¬ xs.isEmpty
  | JVal.obj fs => ¬ fs.isEmpty

/-- Does the list start with the given pattern? -/
def startsWithChars : List Char → List Char → Bool
  | _, [] => true
  | [], _ :: _ => false
  | c :: cs, p :: ps => c = p && startsWithChars cs ps

/-- Does the list contain the pattern as a contiguous run? -/
def hasSubstrChars (pat : List Char) : List Char → Bool
  | [] => startsWithChars [] pat
  | c :: rest => startsWithChars (c :: rest) pat || hasSubstrChars pat rest

/-- Python `pat in s` on strings: substring containment. -/
def strContains (s pat : String) : Bool :=
  hasSubstrChars pat.toList s.toList

/-- Python `key in container` for a string key: key membership on dicts,
element membership on lists, substring test on strings, `False` (observably,
via the enclosing exception handlers) elsewhere. -/
def jContains (container : JVal) (key : String) : Bool :=
  match container with
  | JVal.obj fields => fields.any (fun e => e.1 = key)
  | JVal.arr xs => xs.any (fun x => decide (x = JVal.str key))
  | JVal.str s => strContains s key
  | _ => false

/-- Python `str(x)` on a JSON value, as used by f-strings in the sources. -/
def pyStr : JVal → String
  | JVal.null => "None"
  | JVal.bool true => "True"
  | JVal.bool false => "False"
  | JVal.num n => toString n
  | JVal.str s => s
  | JVal.arr _ => "<list>"
  | JVal.obj _ => "<dict>"

/-- One line read from a stream or socket: its raw text together with the
result of `json.loads` on it (`none` when the parse raises). -/
structure Frame where
  text : String
  parsed : Option JVal

/-! ## `src/mcp_xiaozhi/config.py` — reconnection constants -/

def INITIAL_BACKOFF : Nat := 1
def MAX_BACKOFF : Nat := 600

/-! ## `src/mcp_xiaozhi/connection.py` — reconnection loop and URL rewrite -/

/-- What one iteration of the `while True` loop of `connect_with_retry`
observes: `connect_to_server` either opens the WebSocket and raises later
when the connection drops, or raises without ever opening.  Either way
control reaches the `except Exception` handler of the loop. -/
inductive ConnOutcome where
  | openedThenDropped
  | failedToOpen
deriving DecidableEq

/-- The loop body of `connect_with_retry`, started with the given
`reconnect_attempt` counter and `backoff`, run over the given iteration
outcomes; collects the sleeps (`await asyncio.sleep(backoff)`) performed,
in order.  Each iteration sleeps first when `reconnect_attempt > 0`, then
attempts the connection; the `except Exception` handler then increments
the counter and sets `backoff = min(backoff * 2, MAX_BACKOFF)`. -/
def connectRetryGo : Nat → Nat → List ConnOutcome → List Nat
  | _, _, [] => []
  | attempt, backoff, _o :: os =>
      (if attempt > 0 then [backoff] else []) ++
        connectRetryGo (attempt + 1) (min (backoff * 2) MAX_BACKOFF) os

/-- The sleeps `connect_with_retry` performs during a run whose successive
iterations end as described by `os` (`reconnect_attempt = 0`,
`backoff = INITIAL_BACKOFF` initially). -/
def connectWithRetryWaits (os : List ConnOutcome) : List Nat :=
  connectRetryGo 0 INITIAL_BACKOFF os

/-- Modelled from the claim (not from the code): the wait sequence the
specification predicts — doubling from an initial 1 s, capped at 600 s,
and reset to 1 s by every successful WebSocket open.  After an iteration
that opened, the next wait is the reset value 1; after a failed iteration
the pending wait is emitted and then doubled.  The wait following the last
given iteration has not happened yet, hence `dropLast` in
`claimedWaits`. -/
def claimedRetryGo : Nat → List ConnOutcome → List Nat
  | _, [] => []
  | _, ConnOutcome.openedThenDropped :: os =>
      1 :: claimedRetryGo (min (1 * 2) MAX_BACKOFF) os
  | w, ConnOutcome.failedToOpen :: os =>
      w :: claimedRetryGo (min (w * 2) MAX_BACKOFF) os

/-- Modelled from the claim: the waits the claim predicts for a run with
the given iteration outcomes. -/
def claimedWaits (os : List ConnOutcome) : List Nat :=
  claimedRetryGo INITIAL_BACKOFF os.dropLast

/-- `k`-fold application of `backoff = min(backoff * 2, MAX_BACKOFF)`. -/
def cappedDouble (b : Nat) : Nat → Nat
  | 0 => b
  | k + 1 => min (cappedDouble b k * 2) MAX_BACKOFF

/-- Keep everything up to (excluding) the first occurrence of a stop
character. -/
def upToChar (stop : Char) : List Char → List Char
  | [] => []
  | c :: cs => if c = stop then [] else c :: upToChar stop cs

/-- The remainder after the first occurrence of the separator (`none`
when the separator does not occur). -/
def afterSub (sep : List Char) : List Char → Option (List Char)
  | [] => none
  | c :: cs =>
      if startsWithChars (c :: cs) sep then some ((c :: cs).drop sep.length)
      else afterSub sep cs

/-- The path component of a URL, as `urllib.parse.urlparse(uri).path`
computes it for the WebSocket URLs the bridge dials: fragment and query
are split off, and for a URL with a `://` authority the path starts at the
first `/` after the authority (empty when the authority is not followed by
`/`).  A string without `://` is all path (minus query and fragment). -/
def urlPath (uri : String) : String :=
  let cs := upToChar '?' (upToChar '#' uri.toList)
  match afterSub (':' :: '/' :: '/' :: []) cs with
  | some rest => String.mk (rest.dropWhile (fun c => c ≠ '/'))
  | none => String.mk cs

/-- Python `uri.rstrip("/")`. -/
def rstripSlashes (s : String) : String :=
  String.mk ((s.toList.reverse.dropWhile (fun c => c = '/')).reverse)

/-- The URI rewrite at the top of `connect_to_server`: when the parsed
path is empty or `"/"`, strip trailing slashes and append `"/mcp"`. -/
def fixUri (uri : String) : String :=
  if urlPath uri = "" ∨ urlPath uri = "/" then rstripSlashes uri ++ "/mcp"
  else uri

/-- A Python exception raised during one connection attempt.
`asyncio.CancelledError` derives from `BaseException` (Python ≥ 3.8), so
the `except Exception` handler of `connect_with_retry` does not catch it;
every other exception reaching that loop does get caught. -/
inductive PyExc where
  | runtimeError (msg : String)
  | connectionClosed (msg : String)
  | cancelledError
  | otherError (msg : String)
deriving DecidableEq

/-- `str(e)` for the modelled exceptions. -/
def pyExcMessage : PyExc → String
  | PyExc.runtimeError m => m
  | PyExc.connectionClosed m => m
  | PyExc.cancelledError => ""
  | PyExc.otherError m => m

/-- Whether `except Exception as e:` catches the exception. -/
def isCaughtByExceptException : PyExc → Bool
  | PyExc.cancelledError => false
  | _ => true

/-- `connect_with_retry` is `while True:` around `connect_to_server` with a
blanket `except Exception` handler.  Given the sequence of exceptions its
successive iterations observe, the result is the exception that escapes the
function, and `none` when every exception so far was caught and the loop is
still retrying. -/
def connectWithRetryEscape : List PyExc → Option PyExc
  | [] => none
  | e :: es =>
      if isCaughtByExceptException e then connectWithRetryEscape es
      else some e

/-- `_run_server_for_endpoint` (main.py): it stops the bridge quietly only
when `connect_with_retry` raises a `RuntimeError` whose message contains
"Authentication failed"; any other escaping exception is re-raised and
`none` means `connect_with_retry` is still running. -/
def supervisorStopsOnAuthFailure (events : List PyExc) : Bool :=
  match connectWithRetryEscape events with
  | some (PyExc.runtimeError m) => strContains m "Authentication failed"
  | _ => false

/-! ## `src/mcp_xiaozhi/database.py` — endpoint store -/

/-- A row of the `mcp_endpoints` table. -/
structure EndpointRow where
  id : Int
  name : String
  url : String
  enabled : Bool
  connection_status : String
  last_connected_at : Option String
  connection_error : Option String
  created_at : String
  updated_at : String
deriving DecidableEq

/-- The effect of the single UPDATE statement of `update_endpoint_status`
on a row matched by `WHERE id = ?` (`now` is the timestamp computed once,
before the statement). -/
def updateStatusRow (r : EndpointRow) (status : String)
    (error : Option String) (now : String) : EndpointRow :=
  if status = "connected" then
    { r with connection_status := status, last_connected_at := some now,
             connection_error := none, updated_at := now }
  else
    { r with connection_status := status, connection_error := error,
             updated_at := now }

/-- `update_endpoint_status`: one atomic UPDATE over the table, touching
exactly the rows whose id matches; returns the new table and
`cursor.rowcount > 0`. -/
def update_endpoint_status (db : List EndpointRow) (endpoint_id : Int)
    (status : String) (error : Option String) (now : String) :
    List EndpointRow × Bool :=
  (db.map (fun r =>
      if r.id = endpoint_id then updateStatusRow r status error now else r),
   db.any (fun r => r.id = endpoint_id))

/-! ## `src/mcp_xiaozhi/tools_filter.py` — tools/list filtering -/

/-- JSON string escaping as `json.dumps` performs it on the characters the
frames carry (quote, backslash, the common control escapes; everything else
passes through unchanged). -/
def escapeJson (s : String) : String :=
  s.toList.foldl (fun acc c =>
    acc ++ (if c = '"' then "\\\"" else if c = '\\' then "\\\\"
      else if c = '\n' then "\\n" else if c = '\t' then "\\t"
      else if c = '\r' then "\\r" else String.singleton c)) ""

mutual

/-- `json.dumps` with its default separators. -/
def dumps : JVal → String
  | JVal.null => "null"
  | JVal.bool true => "true"
  | JVal.bool false => "false"
  | JVal.num n => toString n
  | JVal.str s => "\"" ++ escapeJson s ++ "\""
  | JVal.arr xs => "[" ++ dumpsList xs ++ "]"
  | JVal.obj fs => "\x7b" ++ dumpsFields fs ++ "\x7d"

/-- Array elements, comma separated. -/
def dumpsList : List JVal → String
  | [] => ""
  | [x] => dumps x
  | x :: y :: rest => dumps x ++ ", " ++ dumpsList (y :: rest)

/-- Object fields, comma separated. -/
def dumpsFields : List (String × JVal) → String
  | [] => ""
  | [(k, v)] => "\"" ++ escapeJson k ++ "\": " ++ dumps v
  | (k, v) :: g :: rest =>
      "\"" ++ escapeJson k ++ "\": " ++ dumps v ++ ", " ++ dumpsFields (g :: rest)

end

/-- The tool settings as `load_tools_config` returns them from the
database: `disabledTools` maps a server to the tool names stored with
`enabled = 0`; `customTools` maps a server to a map from tool name to a
string-keyed metadata dict (keys "name" and "description"). -/
structure ToolsConfig where
  disabledTools : List (String × List String)
  customTools : List (String × List (String × List (String × String)))

/-- `config.get("disabledTools", \x7b\x7d).get(server_name, [])`. -/
def disabledFor (cfg : ToolsConfig) (server_name : String) : List String :=
  (dictGet cfg.disabledTools server_name).getD []

/-- `config.get("customTools", \x7b\x7d).get(server_name, \x7b\x7d)`. -/
def customFor (cfg : ToolsConfig) (server_name : String) :
    List (String × List (String × String)) :=
  (dictGet cfg.customTools server_name).getD []

/-- `tool_name in disabled_tools`: membership in a list of strings (a
non-string name never equals a string entry). -/
def nameDisabled (disabled : List String) (n : JVal) : Bool :=
  match n with
  | JVal.str s => disabled.contains s
  | _ => false

/-- `custom_tools.get(tool_name, \x7b\x7d)`. -/
def customMetaFor (custom : List (String × List (String × String)))
    (n : JVal) : List (String × String) :=
  match n with
  | JVal.str s => (dictGet custom s).getD []
  | _ => []

/-- The loop body of `filter_tools_response` for one tool: `none` when the
tool is skipped (falsy name, or disabled while `include_disabled` is
unset), otherwise the tool with the custom description overlaid when one
is configured.  The wire name is never touched. -/
def filterToolStep (disabled : List String)
    (custom : List (String × List (String × String)))
    (include_disabled : Bool) (tool : JVal) : Option JVal :=
  match jGet tool "name" with
  | none => none
  | some n =>
      if ¬ truthyJ n then none
      else if (!include_disabled) && nameDisabled disabled n then none
      else
        let meta := customMetaFor custom n
        if meta.isEmpty then some tool
        else
          match dictGet meta "description" with
          | some d => some (jSet tool "description" (JVal.str d))
          | none => some tool

/-- Is the value a JSON object (a Python dict)? -/
def isObjJ : JVal → Bool
  | JVal.obj _ => true
  | _ => false

/-- Is the value usable as a Python dict key?  JSON arrays and objects
parse to Python lists and dicts, which are unhashable. -/
def isHashableJ : JVal → Bool
  | JVal.arr _ => false
  | JVal.obj _ => false
  | _ => true

/-- Does the filter loop process this tool without raising?  A non-dict
tool raises `AttributeError` at `tool.get("name")`; a dict tool whose
truthy name is unhashable raises `TypeError` at `custom_tools.get`
(membership in the disabled list compares by equality, which cannot match
a non-string entry, so that lookup is always reached).  Either exception
aborts the loop, the blanket handler fires, and the whole original
message is returned. -/
def filterToolOk (tool : JVal) : Bool :=
  isObjJ tool &&
    (match jGet tool "name" with
     | some n => !truthyJ n || isHashableJ n
     | none => true)

/-- `filter_tools_response`: parse the message; on a `tools/list` response
rewrite the tools array and reserialize; on a parse failure, on a message
of any other shape, and on any processing error (non-dict message,
non-list `tools` value, non-dict tool entry, truthy unhashable tool name
— each raising inside the `try` and caught by the blanket handlers)
return the original string unchanged. -/
def filter_tools_response (f : Frame) (server_name : String)
    (cfg : ToolsConfig) (include_disabled : Bool) : String :=
  match f.parsed with
  | none => f.text
  | some msg =>
    match msg with
    | JVal.obj _ =>
      match jGet msg "result" with
      | none => f.text
      | some r =>
        if jContains r "tools" then
          match r with
          | JVal.obj _ =>
            match jGet r "tools" with
            | some (JVal.arr tools) =>
              if tools.all filterToolOk then
                let filtered := tools.filterMap
                  (filterToolStep (disabledFor cfg server_name)
                    (customFor cfg server_name) include_disabled)
                dumps (jSet msg "result" (jSet r "tools" (JVal.arr filtered)))
              else f.text
            | _ => f.text
          | _ => f.text
        else f.text
    | _ => f.text

/-! ## `src/mcp_xiaozhi/pipe.py` — child stdout to WebSocket -/

/-- One iteration of the read loop of `pipe_process_to_websocket`, for a
line read from child stdout.  Returns the updated
`_pending_tools_requests` map and the messages sent to the WebSocket in
this iteration (the loop always reaches `await websocket.send(data)`
exactly once per line).  A line on which `json.loads` raises has the error
swallowed by the `except json.JSONDecodeError: pass` handler, and the line
is sent unchanged; `cache_tools_for_cms` only writes a file and is not
modelled. -/
def pipeProcessToWebsocketStep (pending : List (JVal × Bool)) (line : Frame)
    (server_name : String) (cfg : ToolsConfig) :
    List (JVal × Bool) × List String :=
  match line.parsed with
  | none => (pending, [line.text])
  | some msg =>
      let requestId := jGetD msg "id" JVal.null
      if truthyJ requestId && jContains msg "result" &&
          jContains (jGetD msg "result" (JVal.obj [])) "tools" then
        let (include_disabled, pending2) := dictPop pending requestId false
        let data := filter_tools_response line server_name cfg include_disabled ++ "\n"
        (pending2, [data])
      else (pending, [line.text])

/-! ## `web/websocket_hub.py` — aggregating hub -/

/-- The mutable state of `WebSocketHub` read or written by the modelled
operations.  `mcp_tools` holds the names of providers whose sockets are
currently open (the dict values, the socket objects themselves, carry no
information these claims consult); `browser_clients` and the transient
`pending_tools_requests` refresh bookkeeping are omitted for the same
reason. -/
structure Hub where
  mcp_tools : List String
  server_tools : List (String × List JVal)
  tool_registry : List (JVal × String)
  pending_inits : List String
deriving DecidableEq

/-- `register_mcp`: record the provider socket and reset its tool cache.
The initialize request it then sends changes no modelled state. -/
def register_mcp (h : Hub) (server_name : String) : Hub :=
  { h with
    mcp_tools :=
      if h.mcp_tools.contains server_name then h.mcp_tools
      else h.mcp_tools ++ [server_name],
    server_tools := dictSet h.server_tools server_name [],
    pending_inits :=
      if h.pending_inits.contains server_name then h.pending_inits
      else h.pending_inits ++ [server_name] }

/-- The `tools/list`-response branch of `handle_mcp_message`: cache the
array under the server and register every truthy tool name for routing. -/
def cacheToolsResponse (h : Hub) (server_name : String)
    (tools : List JVal) : Hub :=
  { h with
    server_tools := dictSet h.server_tools server_name tools,
    tool_registry := tools.foldl (fun reg tool =>
        match jGet tool "name" with
        | some n => if truthyJ n then dictSet reg n server_name else reg
        | none => reg) h.tool_registry }

/-- The registry-pruning loop of `unregister_mcp`: for each cached tool of
the closing server, delete its name from the routing registry when the
registry still maps that name to this server. -/
def registryDeleteForServer (server_name : String) (tools : List JVal)
    (reg0 : List (JVal × String)) : List (JVal × String) :=
  tools.foldl (fun reg tool =>
      match jGet tool "name" with
      | some n =>
          if truthyJ n ∧ dictGet reg n = some server_name then
            dictDel reg n
          else reg
      | none => reg) reg0

/-- `unregister_mcp`: drop the socket, delete from the routing registry
each cached tool name of this server that the registry still maps to it,
and drop the tool cache. -/
def unregister_mcp (h : Hub) (server_name : String) : Hub :=
  let mt := h.mcp_tools.filter (fun s => s ≠ server_name)
  match dictGet h.server_tools server_name with
  | some tools =>
      { h with mcp_tools := mt,
               server_tools := dictDel h.server_tools server_name,
               tool_registry := registryDeleteForServer server_name tools h.tool_registry }
  | none => { h with mcp_tools := mt }

/-- The inner loop of `get_cached_aggregated_tools` over one server's
cached tools.  State: the names already admitted under their original form
(`tool_names_seen`) and the routing registry; produces the admitted tool
copies in order. -/
def aggServer (server_name : String) :
    List JVal → List JVal → List (JVal × String) →
    List JVal × List JVal × List (JVal × String)
  | [], seen, reg => ([], seen, reg)
  | tool :: ts, seen, reg =>
    match jGet tool "name" with
    | none => aggServer server_name ts seen reg
    | some n =>
      if ¬ truthyJ n then aggServer server_name ts seen reg
      else if n ∈ seen then
        let renamed := server_name ++ "." ++ pyStr n
        let toolCopy := jSet (jSet tool "name" (JVal.str renamed)) "description"
            (JVal.str ("[" ++ server_name ++ "] " ++
              pyStr (jGetD tool "description" (JVal.str ""))))
        let r :=
          aggServer server_name ts seen (dictSet reg (JVal.str renamed) server_name)
        (toolCopy :: r.1, r.2.1, r.2.2)
      else
        let toolCopy := jSet tool "description"
            (JVal.str ("[" ++ server_name ++ "] " ++
              pyStr (jGetD tool "description" (JVal.str ""))))
        let r :=
          aggServer server_name ts (n :: seen) (dictSet reg n server_name)
        (toolCopy :: r.1, r.2.1, r.2.2)

/-- The outer loop of `get_cached_aggregated_tools` over
`self.server_tools` in dict order. -/
def aggAll : List (String × List JVal) → List JVal → List (JVal × String) →
    List JVal × List JVal × List (JVal × String)
  | [], seen, reg => ([], seen, reg)
  | (server_name, tools) :: rest, seen, reg =>
      let r1 := aggServer server_name tools seen reg
      let r2 := aggAll rest r1.2.1 r1.2.2
      (r1.1 ++ r2.1, r2.2.1, r2.2.2)

/-- `get_cached_aggregated_tools`: aggregate every cached tool list with
name-conflict renaming; returns the aggregated list and the hub with the
routing registry it mutated along the way. -/
def get_cached_aggregated_tools (h : Hub) : List JVal × Hub :=
  let r := aggAll h.server_tools [] h.tool_registry
  (r.1, { h with tool_registry := r.2.2 })

/-- What the hub sends while handling one browser frame: the JSON replies
written back on the originating browser socket, and the provider sockets
the raw frame is forwarded to. -/
structure CallResult where
  sentToOrigin : List JVal
  sentToProviders : List String
deriving DecidableEq

/-- A single-quote character (Python f-strings place them around names). -/
def sqChar : String := String.singleton '\''

/-- The -32601 reply `handle_browser_message` sends for an unknown tool. -/
def toolNotFoundError (requestId : JVal) (toolName : JVal) : JVal :=
  JVal.obj [("jsonrpc", JVal.str "2.0"), ("id", requestId),
    ("error", JVal.obj [("code", JVal.num (-32601)),
      ("message", JVal.str ("Tool " ++ sqChar ++ pyStr toolName ++ sqChar ++ " not found"))])]

/-- `forward_to_mcp(message)` with no target, plus the error fallback in
`handle_connection`: broadcast the frame to every provider socket; when
none is connected the broadcast fails and the browser gets -32000. -/
def fallbackBroadcast (h : Hub) : CallResult :=
  if h.mcp_tools.isEmpty then
    { sentToOrigin := [JVal.obj [("jsonrpc", JVal.str "2.0"),
        ("error", JVal.obj [("code", JVal.num (-32000)),
          ("message", JVal.str "MCP tool not connected")])]],
      sentToProviders := [] }
  else { sentToOrigin := [], sentToProviders := h.mcp_tools }

/-- The `tools/call` branch of `handle_browser_message` together with the
fallback in `handle_connection`: look the tool name up in the registry.  A
hit is forwarded to the owning provider when `forward_to_mcp` succeeds —
it returns False when `mcp_tools` is empty or does not hold that server,
and the caller then broadcasts the frame.  A miss with a truthy name gets
the -32601 reply.  A missing or falsy name falls through to the
broadcast. -/
def toolsCallResult (h : Hub) (msg : JVal)
    (paramsFields : List (String × JVal)) : CallResult :=
  match dictGet paramsFields "name" with
  | some n =>
      if truthyJ n then
        match dictGet h.tool_registry n with
        | some server_name =>
            if h.mcp_tools.isEmpty then fallbackBroadcast h
            else if ¬ h.mcp_tools.contains server_name then fallbackBroadcast h
            else { sentToOrigin := [], sentToProviders := [server_name] }
        | none =>
            { sentToOrigin := [toolNotFoundError (jGetD msg "id" JVal.null) n],
              sentToProviders := [] }
      else fallbackBroadcast h
  | none => fallbackBroadcast h

/-- The observable outcomes of `handle_browser_message` (plus the
forwarding fallback of its caller `handle_connection`). -/
inductive BrowserOutcome where
  | initReply (response : JVal)
  | absorbed
  | toolsListHandled
  | call (result : CallResult)
  | broadcast (result : CallResult)
  | crash
deriving DecidableEq

/-- `handle_browser_message` plus the forwarding fallback of
`handle_connection`, for one browser frame.  `crash` marks the paths where
an uncaught `AttributeError` on a non-dict value kills the browser handler
task.  The `tools/list` interception (refresh, aggregate, reply) is
modelled separately through `get_cached_aggregated_tools`. -/
def handle_browser_message (h : Hub) (f : Frame) : BrowserOutcome :=
  match f.parsed with
  | none => BrowserOutcome.broadcast (fallbackBroadcast h)
  | some msg =>
    match msg with
    | JVal.obj _ =>
      let method := jGet msg "method"
      if method = some (JVal.str "initialize") then
        BrowserOutcome.initReply (JVal.obj [("jsonrpc", JVal.str "2.0"),
          ("id", jGetD msg "id" JVal.null),
          ("result", JVal.obj [("protocolVersion", JVal.str "2024-11-05"),
            ("capabilities", JVal.obj []),
            ("serverInfo", JVal.obj [("name", JVal.str "MCP Hub"),
              ("version", JVal.str "1.0.0")])])])
      else if method = some (JVal.str "notifications/initialized") then
        BrowserOutcome.absorbed
      else if method = some (JVal.str "tools/list") then
        BrowserOutcome.toolsListHandled
      else if method = some (JVal.str "tools/call") then
        match jGetD msg "params" (JVal.obj []) with
        | JVal.obj pf => BrowserOutcome.call (toolsCallResult h msg pf)
        | _ => BrowserOutcome.crash
      else BrowserOutcome.broadcast (fallbackBroadcast h)
    | _ => BrowserOutcome.crash

/-- Claim C4's invariant: every routing-registry entry points at a
provider whose socket is currently open. -/
def registryProvidersOpen (h : Hub) : Prop :=
  ∀ e ∈ h.tool_registry, e.2 ∈ h.mcp_tools

/-- The truthy names carried by a list of tool advertisements. -/
def truthyNamesOf (tools : List JVal) : List JVal :=
  tools.filterMap (fun tool =>
    match jGet tool "name" with
    | some n => if truthyJ n then some n else none
    | none => none)

/-- The truthy tool names the hub has cached for a provider (the names
`unregister_mcp` walks). -/
def cachedTruthyNames (h : Hub) (server_name : String) : List JVal :=
  truthyNamesOf ((dictGet h.server_tools server_name).getD [])

/-! ## Specification-side aggregation, modelled from claim C6's words -/

/-- The (provider, tool, name) triples the aggregation walks: the cached
lists in dict order, keeping the tools with a truthy name. -/
def serverEntries (server_name : String) (tools : List JVal) :
    List (String × JVal × JVal) :=
  tools.filterMap (fun tool =>
    match jGet tool "name" with
    | some n => if truthyJ n then some (server_name, tool, n) else none
    | none => none)

/-- All entries over all cached providers, in dict order. -/
def namedEntries (server_tools : List (String × List JVal)) :
    List (String × JVal × JVal) :=
  (server_tools.map (fun st => serverEntries st.1 st.2)).flatten

/-- Modelled from the claim: a first occurrence of a tool name is admitted
under its original name, with the description prefixed by
"[<provider>] ". -/
def admitOriginal (server_name : String) (tool : JVal) : JVal :=
  jSet tool "description"
    (JVal.str ("[" ++ server_name ++ "] " ++
      pyStr (jGetD tool "description" (JVal.str ""))))

/-- Modelled from the claim: a repeated tool name is admitted under the
renamed form "<provider>.<name>", with the description prefixed by
"[<provider>] ". -/
def admitRenamed (server_name : String) (tool : JVal) (n : JVal) : JVal :=
  jSet (jSet tool "name" (JVal.str (server_name ++ "." ++ pyStr n)))
    "description"
    (JVal.str ("[" ++ server_name ++ "] " ++
      pyStr (jGetD tool "description" (JVal.str ""))))

/-- Modelled from the claim: walk the entries keeping the set of names
already admitted in original form; emit the admitted tools and, in order,
the registry writes each admission records (the renamed admissions record
the prefixed form). -/
def aggSpecGo : List JVal → List (String × JVal × JVal) →
    List JVal × List (JVal × String)
  | _, [] => ([], [])
  | seen, (s, tool, n) :: es =>
      if n ∈ seen then
        let r := aggSpecGo seen es
        (admitRenamed s tool n :: r.1,
         (JVal.str (s ++ "." ++ pyStr n), s) :: r.2)
      else
        let r := aggSpecGo (n :: seen) es
        (admitOriginal s tool :: r.1, (n, s) :: r.2)

/-- The seen-set left after walking the entries. -/
def specSeen : List JVal → List (String × JVal × JVal) → List JVal
  | seen, [] => seen
  | seen, (_, _, n) :: es =>
      if n ∈ seen then specSeen seen es else specSeen (n :: seen) es

/-- Apply registry writes in order. -/
def applyWrites (reg : List (JVal × String)) (ws : List (JVal × String)) :
    List (JVal × String) :=
  ws.foldl (fun r w => dictSet r w.1 w.2) reg

/-! ## Concrete scenarios reachable through the modelled operations -/

/-- A provider tool advertisement carrying a name and a description. -/
def mkTool (n d : String) : JVal :=
  JVal.obj [("name", JVal.str n), ("description", JVal.str d)]

/-- The `WebSocketHub.__init__` state. -/
def emptyHub : Hub :=
  { mcp_tools := [], server_tools := [], tool_registry := [],
    pending_inits := [] }

/-- Providers P1 and P2 both connect and both advertise a tool named
"search". -/
def hubConflict : Hub :=
  cacheToolsResponse
    (cacheToolsResponse (register_mcp (register_mcp emptyHub "P1") "P2")
      "P1" [mkTool "search" "find"])
    "P2" [mkTool "search" "lookup"]

/-- The hub after a frontend `tools/list` aggregated the conflicting lists
(registering the renamed form "P2.search"). -/
def hubAfterAgg : Hub := (get_cached_aggregated_tools hubConflict).2

/-- The hub after P2's socket then closes. -/
def hubAfterP2Close : Hub := unregister_mcp hubAfterAgg "P2"

/-- A hub with a single provider P1 advertising one tool. -/
def hubSimple : Hub :=
  cacheToolsResponse (register_mcp emptyHub "P1") "P1" [mkTool "echo" "say"]

/-! # Theorems -/

/-- One capped doubling step commutes with the iteration. -/
theorem cappedDouble_shift (b : Nat) :
    ∀ k, cappedDouble b (k + 1) = cappedDouble (min (b * 2) MAX_BACKOFF) k
  | 0 => rfl
  | k + 1 => by
      show min (cappedDouble b (k + 1) * 2) MAX_BACKOFF = _
      rw [cappedDouble_shift b k]
      rfl

/-- `cappedDouble` at zero. -/
theorem cappedDouble_zero (b : Nat) : cappedDouble b 0 = b := rfl

/-- Once the attempt counter is positive, the sleeps of the retry loop are
the capped-doubling iterates of the current backoff, one per iteration,
independent of whether the iterations opened a connection. -/
theorem connectRetryGo_closed :
    ∀ (os : List ConnOutcome) (a b : Nat),
      connectRetryGo (a + 1) b os = (List.range os.length).map (cappedDouble b) := by
  intro os
  induction os with
  | nil => intro a b; rfl
  | cons o os ih =>
      intro a b
      show (if a + 1 > 0 then [b] else []) ++
          connectRetryGo (a + 1 + 1) (min (b * 2) MAX_BACKOFF) os =
        (List.range (os.length + 1)).map (cappedDouble b)
      rw [if_pos (Nat.succ_pos a), ih (a + 1) (min (b * 2) MAX_BACKOFF),
        List.range_succ_eq_map]
      simp only [List.map_cons, List.map_map, List.singleton_append,
        Function.comp_def, Nat.succ_eq_add_one, cappedDouble_shift,
        cappedDouble_zero]

/-- Starting from backoff 2, the iterates are `min (2 ^ (k + 1)) 600`. -/
theorem cappedDouble_two :
    ∀ k, cappedDouble 2 k = min (2 ^ (k + 1)) MAX_BACKOFF := by
  intro k
  induction k with
  | zero => decide
  | succ k ih =>
      show min (cappedDouble 2 k * 2) MAX_BACKOFF = min (2 ^ (k + 1 + 1)) MAX_BACKOFF
      rw [ih, pow_succ 2 (k + 1)]
      generalize (2 : Nat) ^ (k + 1) = a
      rcases Nat.le_total a MAX_BACKOFF with h | h
      · rw [Nat.min_eq_left h]
      · have h2 : MAX_BACKOFF ≤ a * 2 := le_trans h (by omega)
        rw [Nat.min_eq_right h, Nat.min_eq_right h2,
          Nat.min_eq_right (by decide : MAX_BACKOFF ≤ MAX_BACKOFF * 2)]

/-- Claim C1, amended: in every run of `connect_with_retry`, the wait
before the `k`-th reconnection attempt is `min (2 ^ k) 600` seconds — the
sequence 2, 4, 8, ..., 512, 600, 600, ... — regardless of which attempts
opened successfully: the backoff is doubled before it is ever slept on,
and a successful WebSocket open does not reset it. -/
theorem c1_backoff_waits_closed_form (os : List ConnOutcome) :
    connectWithRetryWaits os =
      (List.range (os.length - 1)).map (fun k => min (2 ^ (k + 1)) MAX_BACKOFF) := by
  cases os with
  | nil => rfl
  | cons o os =>
      have h1 : connectWithRetryWaits (o :: os) =
          connectRetryGo (0 + 1) (min (INITIAL_BACKOFF * 2) MAX_BACKOFF) os := rfl
      have h2 : min (INITIAL_BACKOFF * 2) MAX_BACKOFF = 2 := by decide
      have h3 : (o :: os).length - 1 = os.length := by simp
      rw [h1, h2, h3, connectRetryGo_closed os 0 2]
      exact List.map_congr_left (fun k _ => cappedDouble_two k)

/-- Claim C1 as stated is false at a concrete run: the first connection
opens and later drops, the next attempt fails; the loop then waits 2 s
before that second attempt, while the claimed sequence (initial 1 s,
reset to 1 s by the successful open) predicts a 1 s wait. -/
theorem c1_waits_counterexample :
    connectWithRetryWaits
        [ConnOutcome.openedThenDropped, ConnOutcome.failedToOpen] = [2] ∧
    claimedWaits
        [ConnOutcome.openedThenDropped, ConnOutcome.failedToOpen] = [1] ∧
    connectWithRetryWaits
        [ConnOutcome.openedThenDropped, ConnOutcome.failedToOpen] ≠
      claimedWaits
        [ConnOutcome.openedThenDropped, ConnOutcome.failedToOpen] := by
  refine ⟨by decide, by decide, by decide⟩

/-- The retry loop only lets `CancelledError` escape. -/
theorem connectWithRetryEscape_cases :
    ∀ es : List PyExc,
      connectWithRetryEscape es = none ∨
      connectWithRetryEscape es = some PyExc.cancelledError := by
  intro es
  induction es with
  | nil => exact Or.inl rfl
  | cons e es ih =>
      cases e with
      | cancelledError => exact Or.inr rfl
      | runtimeError m => exact ih
      | connectionClosed m => exact ih
      | otherError m => exact ih

/-- Claim C3 (the code contradicts it): the blanket `except Exception`
in `connect_with_retry` catches a `RuntimeError` carrying
"Authentication failed" like any other failure and the loop keeps
retrying, so the auth-failure handler in `_run_server_for_endpoint`
never fires: no run of the supervisor stops quietly on an authentication
failure. -/
theorem c3_auth_failure_keeps_retrying :
    (∀ (msg : String) (events : List PyExc),
      connectWithRetryEscape (PyExc.runtimeError msg :: events) =
        connectWithRetryEscape events) ∧
    ∀ events : List PyExc, supervisorStopsOnAuthFailure events = false := by
  constructor
  · intro msg events; rfl
  · intro events
    rcases connectWithRetryEscape_cases events with h | h <;>
      simp [supervisorStopsOnAuthFailure, h]

/-- Claim C8: an endpoint URL with an empty path component gets "/mcp"
appended (after stripping trailing slashes) before dialing; a URL whose
path is non-trivial (neither empty nor "/") is dialed unchanged. -/
theorem c8_endpoint_url_mcp_suffix (uri : String) :
    (urlPath uri = "" → fixUri uri = rstripSlashes uri ++ "/mcp") ∧
    (urlPath uri ≠ "" → urlPath uri ≠ "/" → fixUri uri = uri) := by
  constructor
  · intro h; unfold fixUri; rw [if_pos (Or.inl h)]
  · intro h1 h2; unfold fixUri
    have hn : ¬(urlPath uri = "" ∨ urlPath uri = "/") := by
      rintro (h | h)
      · exact h1 h
      · exact h2 h
    rw [if_neg hn]

/-- Witness for C8 at concrete URLs. -/
theorem c8_endpoint_url_mcp_suffix_witness :
    (urlPath "ws://hub.example.com" = "" ∧
      fixUri "ws://hub.example.com" = rstripSlashes "ws://hub.example.com" ++ "/mcp") ∧
    (urlPath "ws://hub.example.com/hub" ≠ "" ∧ urlPath "ws://hub.example.com/hub" ≠ "/" ∧
      fixUri "ws://hub.example.com/hub" = "ws://hub.example.com/hub") :=
  ⟨⟨by decide, (c8_endpoint_url_mcp_suffix "ws://hub.example.com").1 (by decide)⟩,
   ⟨by decide, by decide,
    (c8_endpoint_url_mcp_suffix "ws://hub.example.com/hub").2 (by decide) (by decide)⟩⟩

/-- Claim C9: one call of `update_endpoint_status` with status
"connected" rewrites the matching row in a single update, setting
`last_connected_at` to the current time and clearing the stored error;
with any other status the matching row keeps its `last_connected_at` and
gets the supplied error (or null). -/
theorem c9_update_endpoint_status_effects
    (db : List EndpointRow) (endpoint_id : Int) (error : Option String)
    (now : String) (r : EndpointRow) (hr : r ∈ db) (hid : r.id = endpoint_id) :
    (updateStatusRow r "connected" error now ∈
        (update_endpoint_status db endpoint_id "connected" error now).1 ∧
      (updateStatusRow r "connected" error now).last_connected_at = some now ∧
      (updateStatusRow r "connected" error now).connection_error = none) ∧
    (∀ status : String, status ≠ "connected" →
      updateStatusRow r status error now ∈
          (update_endpoint_status db endpoint_id status error now).1 ∧
        (updateStatusRow r status error now).last_connected_at = r.last_connected_at ∧
        (updateStatusRow r status error now).connection_error = error) := by
  constructor
  · refine ⟨?_, ?_, ?_⟩
    · have hmem : (if r.id = endpoint_id then updateStatusRow r "connected" error now else r) ∈
          (update_endpoint_status db endpoint_id "connected" error now).1 :=
        List.mem_map_of_mem _ hr
      rw [if_pos hid] at hmem
      exact hmem
    · unfold updateStatusRow; rw [if_pos rfl]
    · unfold updateStatusRow; rw [if_pos rfl]
  · intro status hs
    refine ⟨?_, ?_, ?_⟩
    · have hmem : (if r.id = endpoint_id then updateStatusRow r status error now else r) ∈
          (update_endpoint_status db endpoint_id status error now).1 :=
        List.mem_map_of_mem _ hr
      rw [if_pos hid] at hmem
      exact hmem
    · unfold updateStatusRow; rw [if_neg hs]
    · unfold updateStatusRow; rw [if_neg hs]

/-- A sample endpoint row for the C9 witness. -/
def epRow1 : EndpointRow :=
  { id := 1, name := "ep", url := "ws://h", enabled := true,
    connection_status := "error", last_connected_at := none,
    connection_error := some "boom", created_at := "t0", updated_at := "t1" }

/-- Witness for C9 at a concrete one-row table. -/
theorem c9_update_endpoint_status_witness :
    (epRow1 ∈ [epRow1] ∧ epRow1.id = 1) ∧
    (updateStatusRow epRow1 "connected" none "t2" ∈
        (update_endpoint_status [epRow1] 1 "connected" none "t2").1 ∧
      (updateStatusRow epRow1 "connected" none "t2").last_connected_at = some "t2" ∧
      (updateStatusRow epRow1 "connected" none "t2").connection_error = none) :=
  ⟨⟨List.mem_singleton.mpr rfl, rfl⟩,
   (c9_update_endpoint_status_effects [epRow1] 1 none "t2" epRow1
      (List.mem_singleton.mpr rfl) rfl).1⟩

/-- Claim C2 as stated is false at a concrete line: a line from child
stdout that is not valid JSON is sent to the WebSocket unchanged, not
dropped. -/
theorem c2_nonjson_counterexample :
    (pipeProcessToWebsocketStep [] { text := "oops not json\n", parsed := none }
        "calculator" { disabledTools := [], customTools := [] }).2 =
      ["oops not json\n"] ∧
    ["oops not json\n"] ≠ ([] : List String) :=
  ⟨rfl, by decide⟩

/-- Claim C2, amended: a line from child stdout that is not valid JSON is
forwarded to the WebSocket unchanged (pass-through rather than dropped);
the `JSONDecodeError` is swallowed, so the pipe loop stays alive and the
pending-requests map is untouched. -/
theorem c2_nonjson_passthrough (pending : List (JVal × Bool)) (line : Frame)
    (server_name : String) (cfg : ToolsConfig) (h : line.parsed = none) :
    pipeProcessToWebsocketStep pending line server_name cfg =
      (pending, [line.text]) := by
  unfold pipeProcessToWebsocketStep
  rw [h]

/-- Witness for the amended C2 at a concrete non-JSON line. -/
theorem c2_nonjson_passthrough_witness :
    ({ text := "Server started on stdio\n", parsed := none } : Frame).parsed = none ∧
    pipeProcessToWebsocketStep [] { text := "Server started on stdio\n", parsed := none }
        "calculator" { disabledTools := [], customTools := [] } =
      ([], ["Server started on stdio\n"]) :=
  ⟨rfl,
   c2_nonjson_passthrough [] { text := "Server started on stdio\n", parsed := none }
     "calculator" { disabledTools := [], customTools := [] } rfl⟩

/-- Setting one key leaves lookups of a different key unchanged. -/
theorem dictGet_dictSet_ne {α β : Type} [DecidableEq α]
    (d : List (α × β)) (key k : α) (v : β) (h : k ≠ key) :
    dictGet (dictSet d key v) k = dictGet d k := by
  induction d with
  | nil =>
      show (if key = k then some v else dictGet [] k) = dictGet ([] : List (α × β)) k
      rw [if_neg (fun e => h e.symm)]
  | cons e rest ih =>
      obtain ⟨k1, v1⟩ := e
      show dictGet (if k1 = key then (k1, v) :: rest else (k1, v1) :: dictSet rest key v) k = _
      by_cases hk : k1 = key
      · rw [if_pos hk]
        show (if k1 = k then some v else dictGet rest k) =
          (if k1 = k then some v1 else dictGet rest k)
        have hkk : k1 ≠ k := fun e => h (e ▸ hk)
        rw [if_neg hkk, if_neg hkk]
      · rw [if_neg hk]
        show (if k1 = k then some v1 else dictGet (dictSet rest key v) k) =
          (if k1 = k then some v1 else dictGet rest k)
        by_cases hkx : k1 = k
        · rw [if_pos hkx, if_pos hkx]
        · rw [if_neg hkx, if_neg hkx, ih]

/-- Setting a key makes its lookup return the new value. -/
theorem dictGet_dictSet_same {α β : Type} [DecidableEq α]
    (d : List (α × β)) (key : α) (v : β) :
    dictGet (dictSet d key v) key = some v := by
  induction d with
  | nil =>
      show (if key = key then some v else dictGet [] key) = some v
      rw [if_pos rfl]
  | cons e rest ih =>
      obtain ⟨k1, v1⟩ := e
      show dictGet (if k1 = key then (k1, v) :: rest else (k1, v1) :: dictSet rest key v) key = some v
      by_cases hk : k1 = key
      · rw [if_pos hk]
        show (if k1 = key then some v else dictGet rest key) = some v
        rw [if_pos hk]
      · rw [if_neg hk]
        show (if k1 = key then some v1 else dictGet (dictSet rest key v) key) = some v
        rw [if_neg hk, ih]

/-- Assigning one JSON field leaves the others readable unchanged. -/
theorem jGet_jSet_ne (tool : JVal) (key k : String) (v : JVal) (h : k ≠ key) :
    jGet (jSet tool key v) k = jGet tool k := by
  cases tool with
  | obj fields => exact dictGet_dictSet_ne fields key k v h
  | null => rfl
  | bool b => rfl
  | num n => rfl
  | str s => rfl
  | arr xs => rfl

/-- Assigning a JSON field on a dict makes it readable. -/
theorem jGet_jSet_same (fields : List (String × JVal)) (key : String) (v : JVal) :
    jGet (jSet (JVal.obj fields) key v) key = some v :=
  dictGet_dictSet_same fields key v

/-- Claim C5: in the bridge's tools/list filter for provider
`server_name`, a tool whose setting is disabled is omitted unless the
response carries `include_disabled` (with the flag it always passes); a
tool with a custom description gets its description replaced by it; and
no tool's wire name is ever changed by the filter, whatever custom name
is configured.  (`filter_tools_response` rewrites the tools array to
exactly `tools.filterMap (filterToolStep ...)`.) -/
theorem c5_filter_tools_policy (cfg : ToolsConfig) (server_name : String)
    (inc : Bool) :
    (∀ tool n, jGet tool "name" = some n → truthyJ n = true →
      nameDisabled (disabledFor cfg server_name) n = true →
      filterToolStep (disabledFor cfg server_name) (customFor cfg server_name)
        false tool = none) ∧
    (∀ tool n, jGet tool "name" = some n → truthyJ n = true →
      filterToolStep (disabledFor cfg server_name) (customFor cfg server_name)
        true tool ≠ none) ∧
    (∀ tool n d, jGet tool "name" = some n → truthyJ n = true →
      ((!inc) && nameDisabled (disabledFor cfg server_name) n) = false →
      dictGet (customMetaFor (customFor cfg server_name) n) "description" = some d →
      filterToolStep (disabledFor cfg server_name) (customFor cfg server_name)
          inc tool = some (jSet tool "description" (JVal.str d)) ∧
        (isObjJ tool = true →
          jGet (jSet tool "description" (JVal.str d)) "description" =
            some (JVal.str d))) ∧
    (∀ tool out,
      filterToolStep (disabledFor cfg server_name) (customFor cfg server_name)
        inc tool = some out →
      jGet out "name" = jGet tool "name") := by
  refine ⟨?_, ?_, ?_, ?_⟩
  · intro tool n hn ht hd
    unfold filterToolStep
    rw [hn]
    simp [ht, hd]
  · intro tool n hn ht
    unfold filterToolStep
    rw [hn]
    simp only [ht, Bool.not_true, Bool.not_false, Bool.false_and, if_false]
    by_cases hme : (customMetaFor (customFor cfg server_name) n).isEmpty
    · simp [hme]
    · simp only [hme, if_false]
      cases hdg : dictGet (customMetaFor (customFor cfg server_name) n) "description" <;>
        simp [hdg]
  · intro tool n d hn ht hcond hd
    have hme : (customMetaFor (customFor cfg server_name) n).isEmpty = false := by
      cases hmc : customMetaFor (customFor cfg server_name) n with
      | nil => rw [hmc] at hd; exact absurd hd (by simp [dictGet])
      | cons a rest => rfl
    constructor
    · unfold filterToolStep
      rw [hn]
      simp [ht, hcond, hme, hd]
    · intro hobj
      cases tool with
      | obj fields => exact jGet_jSet_same fields "description" (JVal.str d)
      | null => exact absurd hobj (by simp [isObjJ])
      | bool b => exact absurd hobj (by simp [isObjJ])
      | num m => exact absurd hobj (by simp [isObjJ])
      | str s => exact absurd hobj (by simp [isObjJ])
      | arr xs => exact absurd hobj (by simp [isObjJ])
  · intro tool out hstep
    unfold filterToolStep at hstep
    split at hstep
    · exact absurd hstep (by simp)
    · rename_i n heq
      split at hstep
      · exact absurd hstep (by simp)
      · split at hstep
        · exact absurd hstep (by simp)
        · dsimp only [] at hstep
          split at hstep
          · have h2 : tool = out := by injection hstep
            subst h2
            rfl
          · split at hstep
            · rename_i d hd
              have h2 : jSet tool "description" (JVal.str d) = out := by
                injection hstep
              rw [← h2]
              exact jGet_jSet_ne tool "description" "name" (JVal.str d) (by decide)
            · have h2 : tool = out := by injection hstep
              subst h2
              rfl

/-- A sample tool-settings table for the C5 witness. -/
def cfgSample : ToolsConfig :=
  { disabledTools := [("calculator", ["add"])],
    customTools := [("calculator", [("mul", [("description", "multiplies two numbers")])])] }

/-- Witness for C5: a disabled tool is dropped without the flag, and a
custom description is overlaid, at concrete settings. -/
theorem c5_filter_tools_policy_witness :
    (jGet (mkTool "add" "plus") "name" = some (JVal.str "add") ∧
      truthyJ (JVal.str "add") = true ∧
      nameDisabled (disabledFor cfgSample "calculator") (JVal.str "add") = true ∧
      filterToolStep (disabledFor cfgSample "calculator")
        (customFor cfgSample "calculator") false (mkTool "add" "plus") = none) ∧
    (dictGet (customMetaFor (customFor cfgSample "calculator") (JVal.str "mul"))
        "description" = some "multiplies two numbers" ∧
      filterToolStep (disabledFor cfgSample "calculator")
          (customFor cfgSample "calculator") false (mkTool "mul" "times") =
        some (jSet (mkTool "mul" "times") "description"
          (JVal.str "multiplies two numbers"))) :=
  ⟨⟨by decide, by decide, by decide,
    (c5_filter_tools_policy cfgSample "calculator" false).1
      (mkTool "add" "plus") (JVal.str "add") (by decide) (by decide) (by decide)⟩,
   ⟨by decide,
    ((c5_filter_tools_policy cfgSample "calculator" false).2.2.1
       (mkTool "mul" "times") (JVal.str "mul") "multiplies two numbers"
       (by decide) (by decide) (by decide) (by decide)).1⟩⟩

/-- Membership in a dict after `del`. -/
theorem mem_dictDel {α β : Type} [DecidableEq α]
    (d : List (α × β)) (key : α) (e : α × β) :
    e ∈ dictDel d key ↔ e ∈ d ∧ e.1 ≠ key := by
  simp [dictDel, List.mem_filter]

/-- In a dict with distinct keys, every entry is found by lookup. -/
theorem dictGet_eq_some_of_mem {α β : Type} [DecidableEq α]
    {d : List (α × β)} {k : α} {v : β}
    (hnd : (d.map Prod.fst).Nodup) (h : (k, v) ∈ d) :
    dictGet d k = some v := by
  induction d with
  | nil => cases h
  | cons e rest ih =>
      obtain ⟨k1, v1⟩ := e
      rw [List.map_cons, List.nodup_cons] at hnd
      rcases List.mem_cons.mp h with h1 | h1
      · injection h1 with ha hb
        subst ha; subst hb
        show (if k = k then some v else dictGet rest k) = some v
        rw [if_pos rfl]
      · have hne : k1 ≠ k := by
          intro he
          apply hnd.1
          rw [he]
          exact List.mem_map.mpr ⟨(k, v), h1, rfl⟩
        show (if k1 = k then some v1 else dictGet rest k) = some v
        rw [if_neg hne]
        exact ih hnd.2 h1

/-- `del` keeps the keys distinct. -/
theorem nodup_dictDel {α β : Type} [DecidableEq α]
    (d : List (α × β)) (key : α) (hnd : (d.map Prod.fst).Nodup) :
    ((dictDel d key).map Prod.fst).Nodup :=
  List.Nodup.sublist (List.Sublist.map Prod.fst (List.filter_sublist d)) hnd

/-- What the registry-pruning loop of `unregister_mcp` keeps: exactly the
entries that are not an original truthy tool name of the closing server
still owned by it. -/
theorem mem_registryDeleteForServer (server_name : String) :
    ∀ (tools : List JVal) (reg : List (JVal × String)),
      (reg.map Prod.fst).Nodup → ∀ (d : JVal) (p : String),
      ((d, p) ∈ registryDeleteForServer server_name tools reg ↔
        ((d, p) ∈ reg ∧ ¬(p = server_name ∧ d ∈ truthyNamesOf tools))) := by
  intro tools
  induction tools with
  | nil =>
      intro reg hnd d p
      simp [registryDeleteForServer, truthyNamesOf]
  | cons tool ts ih =>
      intro reg hnd d p
      cases hname : jGet tool "name" with
      | none =>
          have hstep2 : registryDeleteForServer server_name (tool :: ts) reg =
              registryDeleteForServer server_name ts reg := by
            show registryDeleteForServer server_name ts
                (match jGet tool "name" with
                 | some n =>
                     if truthyJ n ∧ dictGet reg n = some server_name then
                       dictDel reg n
                     else reg
                 | none => reg) = _
            rw [hname]
          have hnames : truthyNamesOf (tool :: ts) = truthyNamesOf ts := by
            simp [truthyNamesOf, hname]
          rw [hstep2, hnames]
          exact ih reg hnd d p
      | some n =>
          have hstep2 : registryDeleteForServer server_name (tool :: ts) reg =
              registryDeleteForServer server_name ts
                (if truthyJ n ∧ dictGet reg n = some server_name then
                  dictDel reg n
                 else reg) := by
            show registryDeleteForServer server_name ts
                (match jGet tool "name" with
                 | some n =>
                     if truthyJ n ∧ dictGet reg n = some server_name then
                       dictDel reg n
                     else reg
                 | none => reg) = _
            rw [hname]
          rw [hstep2]
          by_cases htr : truthyJ n = true
          · have hnames : truthyNamesOf (tool :: ts) = n :: truthyNamesOf ts := by
              simp [truthyNamesOf, hname, htr]
            rw [hnames]
            by_cases hdg : dictGet reg n = some server_name
            · rw [if_pos ⟨htr, hdg⟩, ih (dictDel reg n) (nodup_dictDel reg n hnd) d p,
                mem_dictDel]
              simp only [List.mem_cons]
              constructor
              · rintro ⟨⟨hmem, hdn⟩, hnot⟩
                refine ⟨hmem, ?_⟩
                rintro ⟨hps, hor⟩
                rcases hor with rfl | hmem2
                · exact hdn rfl
                · exact hnot ⟨hps, hmem2⟩
              · rintro ⟨hmem, hnot⟩
                have hdn : d ≠ n := by
                  rintro rfl
                  have hlk := dictGet_eq_some_of_mem hnd hmem
                  rw [hdg] at hlk
                  have hps : server_name = p := by injection hlk
                  exact hnot ⟨hps.symm, Or.inl rfl⟩
                exact ⟨⟨hmem, hdn⟩, fun hq => hnot ⟨hq.1, Or.inr hq.2⟩⟩
            · rw [if_neg (fun hc => hdg hc.2), ih reg hnd d p]
              simp only [List.mem_cons]
              constructor
              · rintro ⟨hmem, hnot⟩
                refine ⟨hmem, ?_⟩
                rintro ⟨hps, hor⟩
                rcases hor with rfl | hmem2
                · exact hdg (hps ▸ dictGet_eq_some_of_mem hnd hmem)
                · exact hnot ⟨hps, hmem2⟩
              · rintro ⟨hmem, hnot⟩
                exact ⟨hmem, fun hq => hnot ⟨hq.1, Or.inr hq.2⟩⟩
          · have hnames : truthyNamesOf (tool :: ts) = truthyNamesOf ts := by
              simp [truthyNamesOf, hname, htr]
            rw [hnames, if_neg (fun hc => htr hc.1)]
            exact ih reg hnd d p

/-- Claim C4 as stated is false at a reachable hub state: after P1 and P2
both advertise "search", a frontend `tools/list` registers the renamed
form "P2.search" for P2, and when P2's socket then closes
`unregister_mcp` leaves that prefixed entry in the registry, so a
registry entry points at a provider with no open socket. -/
theorem c4_stale_registry_counterexample :
    (JVal.str "P2.search", "P2") ∈ hubAfterP2Close.tool_registry ∧
    "P2" ∉ hubAfterP2Close.mcp_tools ∧
    ¬ registryProvidersOpen hubAfterP2Close :=
  ⟨by decide, by decide, by
    unfold registryProvidersOpen
    decide⟩

/-- Claim C4, amended: when a provider socket closes, `unregister_mcp`
removes exactly the registry entries owned by that provider under one of
its cached original (truthy) tool names; entries registered under the
conflict-prefixed form "<provider>.<name>" are not among those names, so
they survive and may point at a closed provider. -/
theorem c4_unregister_registry_amended (h : Hub) (s : String)
    (hnd : (h.tool_registry.map Prod.fst).Nodup) (d : JVal) (p : String) :
    (d, p) ∈ (unregister_mcp h s).tool_registry ↔
      ((d, p) ∈ h.tool_registry ∧ ¬(p = s ∧ d ∈ cachedTruthyNames h s)) := by
  unfold unregister_mcp cachedTruthyNames
  cases hst : dictGet h.server_tools s with
  | some tools =>
      simp only []
      exact mem_registryDeleteForServer s tools h.tool_registry hnd d p
  | none =>
      simp [truthyNamesOf]

/-- Witness for the amended C4 at the conflict scenario. -/
theorem c4_unregister_registry_amended_witness :
    (hubAfterAgg.tool_registry.map Prod.fst).Nodup ∧
    ((JVal.str "P2.search", "P2") ∈ (unregister_mcp hubAfterAgg "P2").tool_registry ↔
      ((JVal.str "P2.search", "P2") ∈ hubAfterAgg.tool_registry ∧
        ¬("P2" = "P2" ∧ JVal.str "P2.search" ∈ cachedTruthyNames hubAfterAgg "P2"))) :=
  ⟨by decide,
   c4_unregister_registry_amended hubAfterAgg "P2" (by decide)
     (JVal.str "P2.search") "P2"⟩

/-- `specSeen` composes over appended entry lists. -/
theorem specSeen_append :
    ∀ (es1 es2 : List (String × JVal × JVal)) (seen : List JVal),
      specSeen seen (es1 ++ es2) = specSeen (specSeen seen es1) es2 := by
  intro es1
  induction es1 with
  | nil => intro es2 seen; rfl
  | cons e es1 ih =>
      obtain ⟨s, tool, n⟩ := e
      intro es2 seen
      by_cases hseen : n ∈ seen
      · simp only [List.cons_append, specSeen, if_pos hseen]
        exact ih es2 seen
      · simp only [List.cons_append, specSeen, if_neg hseen]
        exact ih es2 (n :: seen)

/-- `aggSpecGo` distributes over appended entry lists. -/
theorem aggSpecGo_append :
    ∀ (es1 es2 : List (String × JVal × JVal)) (seen : List JVal),
      aggSpecGo seen (es1 ++ es2) =
        ((aggSpecGo seen es1).1 ++ (aggSpecGo (specSeen seen es1) es2).1,
         (aggSpecGo seen es1).2 ++ (aggSpecGo (specSeen seen es1) es2).2) := by
  intro es1
  induction es1 with
  | nil => intro es2 seen; rfl
  | cons e es1 ih =>
      obtain ⟨s, tool, n⟩ := e
      intro es2 seen
      by_cases hseen : n ∈ seen
      · simp only [List.cons_append, aggSpecGo, specSeen, if_pos hseen,
          List.append_eq]
        rw [ih es2 seen]
      · simp only [List.cons_append, aggSpecGo, specSeen, if_neg hseen,
          List.append_eq]
        rw [ih es2 (n :: seen)]

/-- Registry writes compose over appended write lists. -/
theorem applyWrites_append (reg : List (JVal × String))
    (ws1 ws2 : List (JVal × String)) :
    applyWrites reg (ws1 ++ ws2) = applyWrites (applyWrites reg ws1) ws2 := by
  unfold applyWrites
  rw [List.foldl_append]

/-- The per-server aggregation loop refines the claim-side walk. -/
theorem aggServer_spec (server_name : String) :
    ∀ (ts : List JVal) (seen : List JVal) (reg : List (JVal × String)),
      aggServer server_name ts seen reg =
        ((aggSpecGo seen (serverEntries server_name ts)).1,
         specSeen seen (serverEntries server_name ts),
         applyWrites reg (aggSpecGo seen (serverEntries server_name ts)).2) := by
  intro ts
  induction ts with
  | nil => intro seen reg; rfl
  | cons tool ts ih =>
      intro seen reg
      cases hname : jGet tool "name" with
      | none =>
          have he : serverEntries server_name (tool :: ts) =
              serverEntries server_name ts := by
            simp [serverEntries, hname]
          have hunf : aggServer server_name (tool :: ts) seen reg =
              aggServer server_name ts seen reg := by
            simp [aggServer, hname]
          rw [he, hunf]
          exact ih seen reg
      | some n =>
          by_cases htr : truthyJ n = true
          · by_cases hseen : n ∈ seen
            · have he : serverEntries server_name (tool :: ts) =
                  (server_name, tool, n) :: serverEntries server_name ts := by
                simp [serverEntries, hname, htr]
              have hunf : aggServer server_name (tool :: ts) seen reg =
                  (admitRenamed server_name tool n ::
                      (aggServer server_name ts seen
                        (dictSet reg (JVal.str (server_name ++ "." ++ pyStr n))
                          server_name)).1,
                    (aggServer server_name ts seen
                      (dictSet reg (JVal.str (server_name ++ "." ++ pyStr n))
                        server_name)).2.1,
                    (aggServer server_name ts seen
                      (dictSet reg (JVal.str (server_name ++ "." ++ pyStr n))
                        server_name)).2.2) := by
                simp [aggServer, hname, htr, hseen, admitRenamed]
              rw [he, hunf,
                ih seen (dictSet reg (JVal.str (server_name ++ "." ++ pyStr n))
                  server_name)]
              simp only [aggSpecGo, specSeen, if_pos hseen]
              rfl
            · have he : serverEntries server_name (tool :: ts) =
                  (server_name, tool, n) :: serverEntries server_name ts := by
                simp [serverEntries, hname, htr]
              have hunf : aggServer server_name (tool :: ts) seen reg =
                  (admitOriginal server_name tool ::
                      (aggServer server_name ts (n :: seen)
                        (dictSet reg n server_name)).1,
                    (aggServer server_name ts (n :: seen)
                      (dictSet reg n server_name)).2.1,
                    (aggServer server_name ts (n :: seen)
                      (dictSet reg n server_name)).2.2) := by
                simp [aggServer, hname, htr, hseen, admitOriginal]
              rw [he, hunf, ih (n :: seen) (dictSet reg n server_name)]
              simp only [aggSpecGo, specSeen, if_neg hseen]
              rfl
          · have he : serverEntries server_name (tool :: ts) =
                serverEntries server_name ts := by
              simp [serverEntries, hname, htr]
            have hunf : aggServer server_name (tool :: ts) seen reg =
                aggServer server_name ts seen reg := by
              simp [aggServer, hname, htr]
            rw [he, hunf]
            exact ih seen reg

/-- The whole aggregation loop refines the claim-side walk. -/
theorem aggAll_spec :
    ∀ (st : List (String × List JVal)) (seen : List JVal)
      (reg : List (JVal × String)),
      aggAll st seen reg =
        ((aggSpecGo seen (namedEntries st)).1,
         specSeen seen (namedEntries st),
         applyWrites reg (aggSpecGo seen (namedEntries st)).2) := by
  intro st
  induction st with
  | nil => intro seen reg; rfl
  | cons p rest ih =>
      obtain ⟨s, ts⟩ := p
      intro seen reg
      have he : namedEntries ((s, ts) :: rest) =
          serverEntries s ts ++ namedEntries rest := by
        simp [namedEntries]
      show ((aggServer s ts seen reg).1 ++
            (aggAll rest (aggServer s ts seen reg).2.1
              (aggServer s ts seen reg).2.2).1,
           (aggAll rest (aggServer s ts seen reg).2.1
             (aggServer s ts seen reg).2.2).2.1,
           (aggAll rest (aggServer s ts seen reg).2.1
             (aggServer s ts seen reg).2.2).2.2) = _
      rw [aggServer_spec s ts seen reg]
      rw [ih]
      rw [he, aggSpecGo_append, specSeen_append, applyWrites_append]

/-- Claim C6: `get_cached_aggregated_tools` equals the claim-side
aggregation — walking all cached (provider, tool) pairs with truthy
names, it admits a first occurrence of a name under the original name
and every later occurrence under "<provider>.<name>", prefixes every
admitted description with "[<provider>] ", and applies, in admission
order, one registry write per admitted tool — the prefixed form for the
renamed ones. -/
theorem c6_aggregation_follows_spec (h : Hub) :
    get_cached_aggregated_tools h =
      ((aggSpecGo [] (namedEntries h.server_tools)).1,
       { h with tool_registry := (applyWrites h.tool_registry
           (aggSpecGo [] (namedEntries h.server_tools)).2) }) := by
  show ((aggAll h.server_tools [] h.tool_registry).1,
        { h with tool_registry :=
            (aggAll h.server_tools [] h.tool_registry).2.2 }) = _
  rw [aggAll_spec]

/-- Claim C7 as stated is false at reachable hub states: (a) a
`tools/call` whose params carry no name is broadcast to every provider
instead of getting the -32601 reply, and (b) a `tools/call` for the
registered tool "P2.search" — whose owner P2 has no open socket after
the C4 leak — is broadcast to P1, not sent to its owning provider. -/
theorem c7_tools_call_counterexample :
    (handle_browser_message hubSimple
        { text := "", parsed := some (JVal.obj [("jsonrpc", JVal.str "2.0"),
            ("id", JVal.num 7), ("method", JVal.str "tools/call"),
            ("params", JVal.obj [])]) } =
      BrowserOutcome.call { sentToOrigin := [], sentToProviders := ["P1"] }) ∧
    (["P1"] ≠ ([] : List String)) ∧
    (dictGet hubAfterP2Close.tool_registry (JVal.str "P2.search") = some "P2") ∧
    (handle_browser_message hubAfterP2Close
        { text := "", parsed := some (JVal.obj [("jsonrpc", JVal.str "2.0"),
            ("id", JVal.num 8), ("method", JVal.str "tools/call"),
            ("params", JVal.obj [("name", JVal.str "P2.search")])]) } =
      BrowserOutcome.call { sentToOrigin := [], sentToProviders := ["P1"] }) ∧
    (["P1"] ≠ ["P2"]) :=
  ⟨by decide, by decide, by decide, by decide, by decide⟩

/-- Claim C7, amended: for a frontend `tools/call` frame, when
`params.name` is present and truthy and not in the registry, the hub
replies on the originating socket with the -32601 "Tool not found" error
and forwards nothing; when it is registered and the owning provider's
socket is open, the frame is forwarded verbatim to exactly that
provider.  (A missing or falsy name, or a registered owner whose socket
is closed, instead falls back to a broadcast.) -/
theorem c7_tools_call_routing_amended (h : Hub) (f : Frame) (msg : JVal)
    (mfs pfs : List (String × JVal))
    (hp : f.parsed = some msg) (hmsg : msg = JVal.obj mfs)
    (hmethod : jGet msg "method" = some (JVal.str "tools/call"))
    (hparams : jGetD msg "params" (JVal.obj []) = JVal.obj pfs) :
    (∀ n : JVal, dictGet pfs "name" = some n → truthyJ n = true →
      dictGet h.tool_registry n = none →
      handle_browser_message h f =
        BrowserOutcome.call
          { sentToOrigin := [toolNotFoundError (jGetD msg "id" JVal.null) n],
            sentToProviders := [] }) ∧
    (∀ (n : JVal) (s : String), dictGet pfs "name" = some n →
      truthyJ n = true →
      dictGet h.tool_registry n = some s → h.mcp_tools.contains s = true →
      handle_browser_message h f =
        BrowserOutcome.call { sentToOrigin := [], sentToProviders := [s] }) := by
  subst hmsg
  have hcall : handle_browser_message h f =
      BrowserOutcome.call (toolsCallResult h (JVal.obj mfs) pfs) := by
    unfold handle_browser_message
    rw [hp]
    simp [hmethod, hparams]
  constructor
  · intro n hn htr hreg
    rw [hcall]
    unfold toolsCallResult
    rw [hn]
    simp [htr, hreg]
  · intro n s hn htr hreg hcont
    rw [hcall]
    unfold toolsCallResult
    rw [hn]
    have hne : h.mcp_tools.isEmpty = false := by
      cases hmt : h.mcp_tools with
      | nil => rw [hmt] at hcont; simp at hcont
      | cons a as => rfl
    simp [htr, hreg, hcont, hne]
    intro habs
    exact absurd (by simpa using hcont) habs

/-- Witness for the amended C7: an unknown tool gets the -32601 reply,
and a known tool with an open owner socket is routed to exactly that
provider. -/
theorem c7_tools_call_routing_amended_witness :
    (handle_browser_message hubSimple
        { text := "", parsed := some (JVal.obj [("jsonrpc", JVal.str "2.0"),
            ("id", JVal.num 9), ("method", JVal.str "tools/call"),
            ("params", JVal.obj [("name", JVal.str "nope")])]) } =
      BrowserOutcome.call
        { sentToOrigin := [toolNotFoundError (JVal.num 9) (JVal.str "nope")],
          sentToProviders := [] }) ∧
    (handle_browser_message hubSimple
        { text := "", parsed := some (JVal.obj [("jsonrpc", JVal.str "2.0"),
            ("id", JVal.num 10), ("method", JVal.str "tools/call"),
            ("params", JVal.obj [("name", JVal.str "echo")])]) } =
      BrowserOutcome.call { sentToOrigin := [], sentToProviders := ["P1"] }) :=
  ⟨(c7_tools_call_routing_amended hubSimple
      { text := "", parsed := some (JVal.obj [("jsonrpc", JVal.str "2.0"),
          ("id", JVal.num 9), ("method", JVal.str "tools/call"),
          ("params", JVal.obj [("name", JVal.str "nope")])]) }
      (JVal.obj [("jsonrpc", JVal.str "2.0"), ("id", JVal.num 9),
        ("method", JVal.str "tools/call"),
        ("params", JVal.obj [("name", JVal.str "nope")])])
      [("jsonrpc", JVal.str "2.0"), ("id", JVal.num 9),
        ("method", JVal.str "tools/call"),
        ("params", JVal.obj [("name", JVal.str "nope")])]
      [("name", JVal.str "nope")]
      rfl rfl (by decide) (by decide)).1
     (JVal.str "nope") (by decide) (by decide) (by decide),
   (c7_tools_call_routing_amended hubSimple
      { text := "", parsed := some (JVal.obj [("jsonrpc", JVal.str "2.0"),
          ("id", JVal.num 10), ("method", JVal.str "tools/call"),
          ("params", JVal.obj [("name", JVal.str "echo")])]) }
      (JVal.obj [("jsonrpc", JVal.str "2.0"), ("id", JVal.num 10),
        ("method", JVal.str "tools/call"),
        ("params", JVal.obj [("name", JVal.str "echo")])])
      [("jsonrpc", JVal.str "2.0"), ("id", JVal.num 10),
        ("method", JVal.str "tools/call"),
        ("params", JVal.obj [("name", JVal.str "echo")])]
      [("name", JVal.str "echo")]
      rfl rfl (by decide) (by decide)).2
     (JVal.str "echo") "P1" (by decide) (by decide) (by decide) (by decide)⟩
